import Mathlib

set_option maxHeartbeats 1000000

/- Shallow embedding of `paddlenlp/transformers/model_utils.py`.  Python values
   appearing in model configurations are embedded as the inductive `CVal`;
   Python dicts are embedded as insertion-ordered association lists, matching
   CPython's dict iteration order. -/

/-- Errors raised by the embedded Python code. -/
inductive PyErr : Type where
  | valueError (msg : String)
  | assertionError (msg : String)
  | typeError (msg : String)
  | attributeError (msg : String)
  | keyError (k : String)
  | indexError (msg : String)
  deriving Repr, DecidableEq

/-- Embedded Python values stored in model configurations: ints, strings,
lists/tuples, dicts, and live pretrained-model instances (inside a
configuration a model instance is represented by its own captured init
configuration, which is all `save_model_config` reads from it). -/
inductive CVal : Type where
  | vInt (n : Int)
  | vStr (s : String)
  | vList (xs : List CVal)
  | vDict (d : List (String × CVal))
  | vModel (cfg : List (String × CVal))
  deriving Repr

/-- Python dict lookup: the binding of the key, if present. -/
def dget {α : Type} (d : List (String × α)) (k : String) : Option α :=
  (d.find? (fun kv => kv.1 == k)).map (fun kv => kv.2)

/-- Python dict assignment `d[k] = v`: updates the existing binding in place
(keeping its position) or appends a new binding at the end. -/
def dset {α : Type} (d : List (String × α)) (k : String) (v : α) :
    List (String × α) :=
  if (d.find? (fun kv => kv.1 == k)).isSome then
    d.map (fun kv => if kv.1 == k then (k, v) else kv)
  else d ++ [(k, v)]

/-- Python `d.pop(k, default)`: the removed value (if any) and the rest. -/
def dpop {α : Type} (d : List (String × α)) (k : String) :
    Option α × List (String × α) :=
  (dget d k, d.filter (fun kv => kv.1 != k))

/-- The dict that remains after `d.pop(k, ...)`. -/
def dremove {α : Type} (d : List (String × α)) (k : String) :
    List (String × α) :=
  (dpop d k).2

/-- Python `d.update(e)`. -/
def dupdate {α : Type} (d e : List (String × α)) : List (String × α) :=
  e.foldl (fun acc kv => dset acc kv.1 kv.2) d

/-- Python string concatenation, kept as an explicit operation on the
underlying character lists so that reasoning stays at the list level. -/
def pyConcat (a b : String) : String := String.mk (a.data ++ b.data)

/-- Python `s.startswith(pre)`. -/
def pyStartsWith (s pre : String) : Bool := pre.data.isPrefixOf s.data

/-- Python `s.endswith(suf)`. -/
def pyEndsWith (s suf : String) : Bool := suf.data.isSuffixOf s.data

/-- Python `len(s)`. -/
def pyLen (s : String) : Nat := s.data.length

/-- Python `s[n:]`. -/
def pyDrop (s : String) (n : Nat) : String := String.mk (s.data.drop n)

/-- Python `s.split('/')[-1]`: the segment after the last slash. -/
def pyLastSeg (s : String) : String :=
  String.mk ((s.data.reverse.takeWhile (fun ch => ch != '/')).reverse)

/-- Python `os.path.join` (POSIX, two components). -/
def pyPathJoin (a b : String) : String :=
  if pyStartsWith b "/" then b
  else if a = "" then b
  else if pyEndsWith a "/" then pyConcat a b
  else pyConcat a (pyConcat "/" b)

/-- JSON values, the image of `json.dumps`/`json.load`: live model instances
have no JSON counterpart (serializing one raises in Python). -/
inductive JVal : Type where
  | jInt (n : Int)
  | jStr (s : String)
  | jArr (xs : List JVal)
  | jObj (d : List (String × JVal))
  deriving Repr

mutual

/-- JSON serialization of an embedded value; `none` when the value contains a
live model instance (Python `json.dumps` raises `TypeError` there). -/
def encodeV : CVal → Option JVal
  | CVal.vInt n => some (JVal.jInt n)
  | CVal.vStr s => some (JVal.jStr s)
  | CVal.vList xs => (encodeL xs).map JVal.jArr
  | CVal.vDict d => (encodeD d).map JVal.jObj
  | CVal.vModel _ => none

/-- JSON serialization of a list of embedded values. -/
def encodeL : List CVal → Option (List JVal)
  | [] => some []
  | x :: tl =>
      match encodeV x, encodeL tl with
      | some j, some js => some (j :: js)
      | _, _ => none

/-- JSON serialization of an embedded dict. -/
def encodeD : List (String × CVal) → Option (List (String × JVal))
  | [] => some []
  | kv :: tl =>
      match encodeV kv.2, encodeD tl with
      | some j, some e => some ((kv.1, j) :: e)
      | _, _ => none

end

mutual

/-- Reading a JSON value back (`json.load`). -/
def decodeV : JVal → CVal
  | JVal.jInt n => CVal.vInt n
  | JVal.jStr s => CVal.vStr s
  | JVal.jArr xs => CVal.vList (decodeL xs)
  | JVal.jObj d => CVal.vDict (decodeD d)

/-- Reading a JSON array back. -/
def decodeL : List JVal → List CVal
  | [] => []
  | x :: tl => decodeV x :: decodeL tl

/-- Reading a JSON object back. -/
def decodeD : List (String × JVal) → List (String × CVal)
  | [] => []
  | kv :: tl => (kv.1, decodeV kv.2) :: decodeD tl

end

/-- One element of the saved `init_args` sequence: a nested pretrained-model
instance is replaced by its own init configuration, anything else is kept
(`arg.init_config if isinstance(arg, PretrainedModel) else arg`). -/
def saveArgElem (v : CVal) : CVal :=
  match v with
  | CVal.vModel cfg => CVal.vDict cfg
  | v => v

/-- Embeds the configuration transformation performed by
`PretrainedModel.save_model_config` before serializing: for the `init_args`
key each sequence element that is a model instance is replaced by its init
configuration; every other value that is a model instance is replaced by its
init configuration.  The Python code iterates `init_args` as a sequence; the
embedding covers the sequence (list/tuple) case and leaves other shapes
unchanged. -/
def save_model_config (init_config : List (String × CVal)) :
    List (String × CVal) :=
  init_config.map (fun kv =>
    if kv.1 = "init_args" then
      (kv.1,
        match kv.2 with
        | CVal.vList xs => CVal.vList (xs.map saveArgElem)
        | v => v)
    else (kv.1, saveArgElem kv.2))

/-- A Python class in the pretrained-model hierarchy, identified by its name
and its first declared parent (`cls.__bases__[0]`); `pm0` stands for
`PretrainedModel` itself.  Parents beyond the first are not consulted by the
embedded decorator. -/
inductive PyClass : Type where
  | pm0
  | sub (name : String) (parent : PyClass)
  deriving Repr, DecidableEq

/-- The `__name__` of an embedded class. -/
def clsName : PyClass → String
  | PyClass.pm0 => "PretrainedModel"
  | PyClass.sub n _ => n

/-- Python `issubclass(c, PretrainedModel)` along the first-parent chain. -/
def isSubPM : PyClass → Bool
  | PyClass.pm0 => true
  | PyClass.sub _ p => isSubPM p

/-- State of the class-level `base_model_class` attributes: base-class name
mapped to the name of the class currently registered for it. -/
abbrev BaseRegistry := List (String × String)

/-- The message of the assertion in `register_base_model`. -/
def registerAssertMsg : String :=
  "`register_base_model` should be used on subclasses of PretrainedModel."

/-- Embeds `register_base_model`: reads the decorated class's first declared
parent, asserts it is a (possibly indirect) subclass of the pretrained-model
base, records the association on that parent, and returns the decorated class
unchanged.  (`pm0`'s own first parent is the external `Layer` class, which is
not such a subclass, so decorating it fails the assertion.) -/
def register_base_model (st : BaseRegistry) (c : PyClass) :
    Except PyErr (BaseRegistry × PyClass) :=
  match c with
  | PyClass.pm0 => Except.error (PyErr.assertionError registerAssertMsg)
  | PyClass.sub _ p =>
      if isSubPM p then Except.ok (dset st (clsName p) (clsName c), c)
      else Except.error (PyErr.assertionError registerAssertMsg)

/-- The class-level data of the model class `from_pretrained` is invoked on.
Classes are identified by name; `base_param_names` and `derived_param_names`
embed `inspect.signature(....__init__).parameters` of the registered base
class and of the target class. -/
structure ClassInfo : Type where
  name : String
  model_config_file : String := "model_config.json"
  pretrained_init_configuration : List (String × List (String × CVal)) := []
  resource_files_names : List (String × String) :=
    [("model_state", "model_state.pdparams")]
  pretrained_resource_files_map : List (String × List (String × String)) := []
  base_model_class : String
  base_model_pfx : String
  base_param_names : List String := []
  derived_param_names : List String := []
  deriving Repr

/-- A constructed model instance, as far as the loading logic observes it:
its class name, its attribute names (for `hasattr`), and its live parameter
mapping `state_dict()` from dot-qualified path to tensor value (type `T`,
opaque to this module), holding freshly-initialized values. -/
structure CModel (T : Type) : Type where
  className : String
  attrs : List String
  params : List (String × T)
  deriving Repr

/-- Python `hasattr(m, a)`. -/
def hasattr {T : Type} (m : CModel T) (a : String) : Bool :=
  m.attrs.contains a

/-- An actual argument of an embedded constructor call: either a plain
configuration value or a freshly built model instance. -/
inductive ArgVal (T : Type) : Type where
  | c (v : CVal)
  | m (mdl : CModel T)
  deriving Repr

/-- A record of one constructor invocation made by `from_pretrained`. -/
structure CtorCall (T : Type) : Type where
  className : String
  posArgs : List (ArgVal T)
  kwArgs : List (String × ArgVal T)
  deriving Repr

/-- The external collaborators of `from_pretrained`: filesystem checks, the
downloader, JSON loading, the tensor runtime's weight loading, the Python
constructors, and the execution mode.  `construct` stands for calling a class
(by name) on the given arguments. -/
structure Env (T : Type) : Type where
  isdir : String → Bool
  isfile : String → Bool
  pathExists : String → Bool
  download : String → String → String
  model_home : String
  loadConfigJson : String → List (String × CVal)
  loadWeights : String → List (String × T)
  construct : String → List (ArgVal T) → List (String × ArgVal T) → CModel T
  in_dynamic_mode : Bool

/-- Python `", ".join(l)`. -/
def joinComma : List String → String
  | [] => ""
  | [x] => x
  | x :: tl => pyConcat x (pyConcat ", " (joinComma tl))

/-- The repr of one registry name inside `dict_keys([...])`: the name wrapped
in single quotes (the quote character is spelled via its code point). -/
def pyQuote (s : String) : String :=
  pyConcat (String.singleton (Char.ofNat 39))
    (pyConcat s (String.singleton (Char.ofNat 39)))

/-- Python `str(d.keys())` for a dict with the given keys. -/
def dictKeysRepr (ks : List String) : String :=
  pyConcat "dict_keys([" (pyConcat (joinComma (ks.map pyQuote)) "])")

/-- The message of the `ValueError` raised for an unknown model identifier. -/
def fpValueErrorMsg (cls : ClassInfo) (nop : String) : String :=
  pyConcat "Calling "
    (pyConcat cls.name
      (pyConcat ".from_pretrained() with a model identifier or the path to a directory instead. The supported model identifiers are as follows: "
        (pyConcat (dictKeysRepr (cls.pretrained_init_configuration.map Prod.fst))
          (pyConcat ", but got: " nop))))

/-- Resolution of a single resource file (the loop body at the top of
`from_pretrained`): an existing local file is used directly, then the local
cache under the default root is consulted, and otherwise the file is
downloaded into the default root. -/
def resolveOne {T : Type} (env : Env T) (defaultRoot fp : String) : String :=
  let path := pyPathJoin defaultRoot (pyLastSeg fp)
  if env.isfile fp then fp
  else if env.pathExists path then path
  else env.download fp defaultRoot

/-- The artifact-resolution part of `from_pretrained` (registry or directory
lookup, per-resource resolution, and loading of the effective init
configuration).  Returns the resolved resource files with the
`model_config_file` entry already popped, plus the effective `init_kwargs`. -/
def resolvePhase {T : Type} (cls : ClassInfo) (env : Env T) (nop : String) :
    Except PyErr (List (String × String) × List (String × CVal)) := do
  let names := cls.pretrained_init_configuration.map Prod.fst
  let (resource_files, init_configuration) ←
    if names.contains nop then do
      let rf ← cls.pretrained_resource_files_map.mapM (fun fm =>
        match dget fm.2 nop with
        | some url => Except.ok (fm.1, url)
        | none => Except.error (PyErr.keyError nop))
      Except.ok (rf, (dget cls.pretrained_init_configuration nop).getD [])
    else if env.isdir nop then
      Except.ok
        (cls.resource_files_names.map (fun fn => (fn.1, pyPathJoin nop fn.2))
           ++ [("model_config_file", pyPathJoin nop cls.model_config_file)],
         ([] : List (String × CVal)))
    else Except.error (PyErr.valueError (fpValueErrorMsg cls nop))
  let defaultRoot := pyPathJoin env.model_home nop
  let resolved := resource_files.map (fun fp => (fp.1, resolveOne env defaultRoot fp.2))
  let (mcf, rest) := dpop resolved "model_config_file"
  let initKwargs :=
    match mcf with
    | some p => env.loadConfigJson p
    | none => init_configuration
  Except.ok (rest, initKwargs)

/-- Python `tuple(x)` / `list(x)` / argument unpacking on a configuration
value: defined for the sequence case; anything else raises `TypeError`
(Python would raise at the corresponding unpacking or iteration site). -/
def asSeq (v : CVal) : Except PyErr (List CVal) :=
  match v with
  | CVal.vList xs => Except.ok xs
  | _ => Except.error (PyErr.typeError "argument unpacking expects a sequence")

/-- First positional nested-marker search: the loop over `enumerate(init_args)`
looking for a dict value containing an `init_class` key. -/
def findPosMarker (i : Nat) : List CVal → Option (Nat × List (String × CVal))
  | [] => none
  | x :: tl =>
      match x with
      | CVal.vDict d =>
          if (dget d "init_class").isSome then some (i, d)
          else findPosMarker (i + 1) tl
      | _ => findPosMarker (i + 1) tl

/-- First keyword nested-marker search: the loop over `init_kwargs.items()`
looking for a dict value containing an `init_class` key. -/
def findKwMarker : List (String × CVal) → Option (String × List (String × CVal))
  | [] => none
  | kv :: tl =>
      match kv.2 with
      | CVal.vDict d =>
          if (dget d "init_class").isSome then some (kv.1, d)
          else findKwMarker tl
      | _ => findKwMarker tl

/-- The message of the assertion guarding each nested marker. -/
def baseAssertMsg (cls : ClassInfo) : String :=
  pyConcat "pretrained base model should be " cls.base_model_class

/-- Checks the `assert arg.pop("init_class") == cls.base_model_class.__name__`
on a found marker and returns the marker dict with `init_class` popped. -/
def popMarker (cls : ClassInfo) (d : List (String × CVal)) :
    Except PyErr (List (String × CVal)) :=
  match dget d "init_class" with
  | some (CVal.vStr s) =>
      if s == cls.base_model_class then Except.ok (dremove d "init_class")
      else Except.error (PyErr.assertionError (baseAssertMsg cls))
  | _ => Except.error (PyErr.assertionError (baseAssertMsg cls))

/-- Whether the loaded configuration counts as authored for the base class:
the popped `init_class` value is absent (the pop's default is the base class
name) or equals the base-model class name.  Any non-string value compares
unequal in Python. -/
def isBaseConfig (cls : ClassInfo) (initClassV : Option CVal) : Bool :=
  match initClassV with
  | none => true
  | some (CVal.vStr s) => s == cls.base_model_class
  | some _ => false

/-- The outcome of splitting the loaded configuration between the base and the
derived constructor (the code between the `init_class` pop and the
construction calls). -/
structure Recon : Type where
  base_args : List CVal
  base_kwargs : List (String × CVal)
  derived_args : List CVal
  derived_kwargs : List (String × CVal)
  base_arg_index : Option (Sum Nat String)
  deriving Repr

/-- Embeds the configuration-reconciliation part of `from_pretrained`: pops
`init_args` and `init_class`, decides whether the loaded configuration was
authored for the base class, and otherwise extracts the nested base-model
marker.  Both marker loops run: a keyword marker found after a positional one
overwrites it, exactly as in the source.  In-place `pop` mutations of marker
dicts are reflected into `derived_args`/`derived_kwargs` (the loaded
configuration, coming from JSON, contains no aliased objects). -/
def reconcile (cls : ClassInfo) (initKwargs0 : List (String × CVal)) :
    Except PyErr Recon := do
  let (initArgsV, kw1) := dpop initKwargs0 "init_args"
  let (initClassV, kw2) := dpop kw1 "init_class"
  if isBaseConfig cls initClassV then do
    let base_args ← asSeq (initArgsV.getD (CVal.vList []))
    Except.ok
      { base_args, base_kwargs := kw2, derived_args := [], derived_kwargs := [],
        base_arg_index := none }
  else do
    let initArgs ← asSeq (initArgsV.getD (CVal.vList []))
    let (derivedArgs1, posFound) ←
      match findPosMarker 0 initArgs with
      | none => Except.ok (initArgs, (none : Option (Nat × List (String × CVal))))
      | some (i, d) => do
          let d1 ← popMarker cls d
          Except.ok (initArgs.set i (CVal.vDict d1), some (i, d1))
    let (derivedKw1, kwFound) ←
      match findKwMarker kw2 with
      | none => Except.ok (kw2, (none : Option (String × List (String × CVal))))
      | some (k, d) => do
          let d1 ← popMarker cls d
          Except.ok (dset kw2 k (CVal.vDict d1), some (k, d1))
    let chosen : Option (Sum Nat String × List (String × CVal)) :=
      match kwFound with
      | some (k, d) => some (Sum.inr k, d)
      | none =>
          match posFound with
          | some (i, d) => some (Sum.inl i, d)
          | none => none
    match chosen with
    | none =>
        Except.error (PyErr.attributeError "NoneType object has no attribute pop")
    | some (idx, bdict) => do
        let (baV, brest) := dpop bdict "init_args"
        let derivedArgs2 :=
          match idx with
          | Sum.inl i => derivedArgs1.set i (CVal.vDict brest)
          | Sum.inr _ => derivedArgs1
        let derivedKw2 :=
          match idx with
          | Sum.inl _ => derivedKw1
          | Sum.inr k => dset derivedKw1 k (CVal.vDict brest)
        let base_args ← asSeq (baV.getD (CVal.vList []))
        Except.ok
          { base_args, base_kwargs := brest, derived_args := derivedArgs2,
            derived_kwargs := derivedKw2, base_arg_index := some idx }

/-- Embeds the construction part of `from_pretrained` (the branch on
`cls == cls.base_model_class`): merging of explicit call arguments into the
loaded ones, substitution of the freshly built base model, and the
constructor invocations.  Returns the final model and the invocations made. -/
def constructPhase {T : Type} (cls : ClassInfo) (env : Env T) (rc : Recon)
    (args : List CVal) (kwargs : List (String × CVal)) :
    Except PyErr (CModel T × List (CtorCall T)) :=
  if cls.name == cls.base_model_class then
    let bargs := if args.isEmpty then rc.base_args else args
    let bkw := dupdate rc.base_kwargs kwargs
    let pa := bargs.map ArgVal.c
    let ka := bkw.map (fun kv => (kv.1, ArgVal.c kv.2))
    Except.ok (env.construct cls.name pa ka, [⟨cls.name, pa, ka⟩])
  else
    let bkw := kwargs.foldl
      (fun acc kv => if cls.base_param_names.contains kv.1 then dset acc kv.1 kv.2 else acc)
      rc.base_kwargs
    let pa := rc.base_args.map ArgVal.c
    let ka := bkw.map (fun kv => (kv.1, ArgVal.c kv.2))
    let baseModel := env.construct cls.base_model_class pa ka
    let dargs0 : List (ArgVal T) := rc.derived_args.map ArgVal.c
    match rc.base_arg_index with
    | some (Sum.inr _) =>
        Except.error (PyErr.typeError "list indices must be integers or slices, not str")
    | other =>
        let dargs1 :=
          match other with
          | some (Sum.inl i) => dargs0.set i (ArgVal.m baseModel)
          | _ => [ArgVal.m baseModel]
        let dargs2 := if args.isEmpty then dargs1 else args.map ArgVal.c
        let dkw := kwargs.foldl
          (fun acc kv =>
            if cls.derived_param_names.contains kv.1 then dset acc kv.1 (ArgVal.c kv.2)
            else acc)
          (rc.derived_kwargs.map (fun kv => (kv.1, ArgVal.c kv.2)))
        Except.ok
          (env.construct cls.name dargs2 dkw,
           [⟨cls.base_model_class, pa, ka⟩, ⟨cls.name, dargs2, dkw⟩])

/-- The effect of `model_to_load.set_state_dict(state_to_load)` on the full
model's parameters: `sub = none` loads into the full model, `sub = some p`
loads into the sub-layer at attribute `p` (whose parameters are the full
model's parameters under the dotted path `p.`).  Parameters present in the
state take its value; parameters absent from it keep their current value;
extra state keys are ignored. -/
def applyStateToModel {T : Type} (model : CModel T) (sub : Option String)
    (state : List (String × T)) : List (String × T) :=
  match sub with
  | none =>
      model.params.map (fun kv =>
        match dget state kv.1 with
        | some w => (kv.1, w)
        | none => kv)
  | some p =>
      model.params.map (fun kv =>
        if pyStartsWith kv.1 (pyConcat p ".") then
          match dget state (pyDrop kv.1 (pyLen p + 1)) with
          | some w => (kv.1, w)
          | none => kv
        else kv)

/-- The outcome of the weight-loading part of `from_pretrained`. -/
structure LoadOut (T : Type) : Type where
  weight_path : String
  state_to_load : List (String × T)
  missing_keys : List String
  unexpected_keys : List String
  subTarget : Option String
  finalParams : List (String × T)
  deriving Repr

/-- Embeds the weight-loading part of `from_pretrained`: the first resolved
resource value is the weight file (its name must end in `.pdparams`), and the
checkpoint's key prefixes are reconciled against the live model's attribute
hierarchy exactly as in the source's two `if` blocks. -/
def loadPhase {T : Type} (cls : ClassInfo) (env : Env T) (model : CModel T)
    (resolved : List (String × String)) : Except PyErr (LoadOut T) := do
  let weight_path ←
    match resolved with
    | [] => Except.error (PyErr.indexError "list index out of range")
    | kv :: _ => Except.ok kv.2
  if pyEndsWith weight_path ".pdparams" then
    let state_dict := env.loadWeights weight_path
    let anyPfx := state_dict.any (fun kv => pyStartsWith kv.1 cls.base_model_pfx)
    let hasA := hasattr model cls.base_model_pfx
    let (state_to_load, unexpected_keys) :=
      if !hasA && anyPfx then
        (state_dict.filterMap (fun kv =>
           if pyStartsWith kv.1 cls.base_model_pfx then
             some (pyDrop kv.1 (pyLen cls.base_model_pfx + 1), kv.2)
           else none),
         state_dict.filterMap (fun kv =>
           if pyStartsWith kv.1 cls.base_model_pfx then none else some kv.1))
      else (state_dict, [])
    let (subTarget, missing_keys) :=
      if hasA && !anyPfx then
        (some cls.base_model_pfx,
         (model.params.map Prod.fst).filter
           (fun k => !pyStartsWith k cls.base_model_pfx))
      else (none, [])
    Except.ok
      { weight_path, state_to_load, missing_keys, unexpected_keys, subTarget,
        finalParams := applyStateToModel model subTarget state_to_load }
  else Except.error (PyErr.assertionError "suffix of weight must be .pdparams")

/-- The value returned by `from_pretrained`: the model alone in dynamic mode,
or the pair of the model and the loaded state mapping otherwise. -/
inductive RetVal (T : Type) : Type where
  | single (m : CModel T)
  | pair (m : CModel T) (st : List (String × T))
  deriving Repr

/-- The model carried by a `from_pretrained` return value. -/
def retModel {T : Type} : RetVal T → CModel T
  | RetVal.single m => m
  | RetVal.pair m _ => m

/-- Everything observable about one successful `from_pretrained` call: the
return value, the constructed model before loading, the effective loaded
configuration, the resolved resources (after the config-file pop), the
constructor invocations, and the weight-loading outcome. -/
structure FPResult (T : Type) : Type where
  ret : RetVal T
  model : CModel T
  initConfig : List (String × CVal)
  resolved : List (String × String)
  ctorCalls : List (CtorCall T)
  weight_path : String
  state_to_load : List (String × T)
  missing_keys : List String
  unexpected_keys : List String
  finalParams : List (String × T)
  deriving Repr

/-- Assembles the observables of a successful call. -/
def mkFPResult {T : Type} (env : Env T) (resolved : List (String × String))
    (initKwargs : List (String × CVal)) (model : CModel T)
    (calls : List (CtorCall T)) (lo : LoadOut T) : FPResult T :=
  let loadedModel : CModel T := { model with params := lo.finalParams }
  { ret :=
      if env.in_dynamic_mode then RetVal.single loadedModel
      else RetVal.pair loadedModel lo.state_to_load,
    model, initConfig := initKwargs, resolved, ctorCalls := calls,
    weight_path := lo.weight_path, state_to_load := lo.state_to_load,
    missing_keys := lo.missing_keys, unexpected_keys := lo.unexpected_keys,
    finalParams := lo.finalParams }

/-- Embeds `PretrainedModel.from_pretrained` as the composition of its four
parts: artifact resolution, configuration reconciliation, construction, and
weight loading. -/
def from_pretrained {T : Type} (cls : ClassInfo) (env : Env T) (nop : String)
    (args : List CVal) (kwargs : List (String × CVal)) :
    Except PyErr (FPResult T) := do
  let (resolved, initKwargs) ← resolvePhase cls env nop
  let rc ← reconcile cls initKwargs
  let (model, calls) ← constructPhase cls env rc args kwargs
  let lo ← loadPhase cls env model resolved
  Except.ok (mkFPResult env resolved initKwargs model calls lo)

/-- The nested-marker selection as the code actually implements it: both
search loops run, so a keyword-argument marker, when present, overwrites a
positional one.  Keyword occurrences therefore take precedence; within each
kind the first occurrence wins.  The chosen marker dict is returned with its
`init_class` entry removed.  This definition follows the amended wording of
the reconciliation claim and is compared against `reconcile`. -/
def amendedMarkerChoice (initArgs : List CVal) (kw : List (String × CVal)) :
    Option (Sum Nat String × List (String × CVal)) :=
  match findKwMarker kw with
  | some (k, d) => some (Sum.inr k, dremove d "init_class")
  | none =>
      match findPosMarker 0 initArgs with
      | some (i, d) => some (Sum.inl i, dremove d "init_class")
      | none => none

/- Concrete class tables and environments used to exercise the embedding. -/

/-- A tensor environment over `Nat` with one registered checkpoint; the
derived class constructs a model holding a nested base model at attribute
`bert` plus one head parameter, the base class a bare two-parameter model. -/
def wEnvA : Env Nat where
  isdir := fun _ => false
  isfile := fun _ => true
  pathExists := fun _ => false
  download := fun a _ => a
  model_home := "HOME"
  loadConfigJson := fun _ => []
  loadWeights := fun _ => [("w", 5)]
  construct := fun n _ _ =>
    if n = "DCls" then ⟨"DCls", ["bert"], [("bert.w", 0), ("head.w", 7)]⟩
    else ⟨"BCls", [], [("w", 0)]⟩
  in_dynamic_mode := true

/-- The derived (head) class of the concrete scenario. -/
def wClsD : ClassInfo where
  name := "DCls"
  pretrained_init_configuration := [("m1", [])]
  pretrained_resource_files_map :=
    [("model_state", [("m1", "weights/model_state.pdparams")])]
  base_model_class := "BCls"
  base_model_pfx := "bert"

/-- The base class of the concrete scenario. -/
def wClsB : ClassInfo where
  name := "BCls"
  pretrained_init_configuration := [("m1", [])]
  pretrained_resource_files_map :=
    [("model_state", [("m1", "weights/model_state.pdparams")])]
  base_model_class := "BCls"
  base_model_pfx := "bert"

/-- Environment for loading a base-prefixed checkpoint into the bare base
model. -/
def wEnvB : Env Nat :=
  { wEnvA with
    loadWeights := fun _ => [("bert.w", 3), ("bert.b", 4)],
    construct := fun n _ _ => ⟨n, [], [("w", 0), ("b", 0)]⟩ }

/-- The static-graph variant of the derived-model environment. -/
def wEnvC : Env Nat := { wEnvA with in_dynamic_mode := false }

/-- Class table whose registered configuration was authored for a derived
class and contains BOTH a positional and a keyword nested base-model marker,
with distinguishable hyperparameters (1 vs 2). -/
def wClsBoth : ClassInfo where
  name := "BCls"
  pretrained_init_configuration :=
    [("m3",
      [("init_class", CVal.vStr "DerivedX"),
       ("init_args",
        CVal.vList [CVal.vDict [("init_class", CVal.vStr "BCls"), ("hp", CVal.vInt 1)]]),
       ("emb", CVal.vDict [("init_class", CVal.vStr "BCls"), ("hp", CVal.vInt 2)])])]
  pretrained_resource_files_map :=
    [("model_state", [("m3", "weights/model_state.pdparams")])]
  base_model_class := "BCls"
  base_model_pfx := "bert"

/-- A loaded configuration authored for a derived class whose nested
base-model marker sits only at a keyword-argument name. -/
def wCfgKw : List (String × CVal) :=
  [("init_class", CVal.vStr "DCls"),
   ("emb", CVal.vDict [("init_class", CVal.vStr "BCls"), ("hp", CVal.vInt 2)])]

/-- Derived class table whose registered configuration carries the nested
base-model marker only at a keyword-argument name. -/
def wClsKw : ClassInfo where
  name := "DCls"
  pretrained_init_configuration := [("m4", wCfgKw)]
  pretrained_resource_files_map :=
    [("model_state", [("m4", "weights/model_state.pdparams")])]
  base_model_class := "BCls"
  base_model_pfx := "bert"

/-- Base class table with a loaded configuration carrying one positional init
argument and one keyword hyperparameter, for the override claim. -/
def wClsOv : ClassInfo where
  name := "BCls"
  pretrained_init_configuration :=
    [("m5", [("init_args", CVal.vList [CVal.vInt 7]), ("hp", CVal.vInt 1)])]
  pretrained_resource_files_map :=
    [("model_state", [("m5", "weights/model_state.pdparams")])]
  base_model_class := "BCls"
  base_model_pfx := "bert"

/-- A configuration with a nested model instance both inside `init_args` and
as a plain keyword value, for the save/round-trip claim. -/
def wCfgSave : List (String × CVal) :=
  [("init_args", CVal.vList [CVal.vModel [("h", CVal.vInt 8)], CVal.vInt 3]),
   ("emb", CVal.vModel [("h", CVal.vInt 8)]),
   ("n", CVal.vInt 2)]

/- Helper lemmas shared by the claim theorems. -/

/-- Inversion of a successful monadic bind over `Except`. -/
theorem except_bind_ok {ε α β : Type} {a : Except ε α} {f : α → Except ε β} {r : β}
    (h : (a >>= f) = Except.ok r) : ∃ v, a = Except.ok v ∧ f v = Except.ok r := by
  cases a with
  | error e => simp [Bind.bind, Except.bind] at h
  | ok v => exact ⟨v, rfl, by simpa [Bind.bind, Except.bind] using h⟩

/-- Inversion of a successful `from_pretrained` call into its four parts. -/
theorem from_pretrained_inv {T : Type} {cls : ClassInfo} {env : Env T} {nop : String}
    {args : List CVal} {kwargs : List (String × CVal)} {r : FPResult T}
    (h : from_pretrained cls env nop args kwargs = Except.ok r) :
    ∃ resolved initKwargs rc model calls lo,
      resolvePhase cls env nop = Except.ok (resolved, initKwargs) ∧
      reconcile cls initKwargs = Except.ok rc ∧
      constructPhase cls env rc args kwargs = Except.ok (model, calls) ∧
      loadPhase cls env model resolved = Except.ok lo ∧
      r = mkFPResult env resolved initKwargs model calls lo := by
  unfold from_pretrained at h
  obtain ⟨⟨resolved, ik⟩, h1, h⟩ := except_bind_ok h
  obtain ⟨rc, h2, h⟩ := except_bind_ok h
  obtain ⟨⟨model, calls⟩, h3, h⟩ := except_bind_ok h
  obtain ⟨lo, h4, h⟩ := except_bind_ok h
  injection h with h
  exact ⟨resolved, ik, rc, model, calls, lo, h1, h2, h3, h4, h.symm⟩

/-- Looking up a key right after setting it yields the value that was set. -/
theorem dget_dset_self {α : Type} (d : List (String × α)) (k : String) (v : α) :
    dget (dset d k v) k = some v := by
  unfold dset
  split
  · rename_i hfind
    induction d with
    | nil => simp at hfind
    | cons kv tl ih =>
        by_cases hk : kv.1 == k
        · simp [dget, List.find?, hk]
        · simp only [List.find?_cons, hk] at hfind
          simp only [List.map_cons, hk, if_false]
          simpa [dget, List.find?, hk] using ih hfind
  · induction d with
    | nil => simp [dget, List.find?]
    | cons kv tl ih =>
        rename_i hfind
        by_cases hk : kv.1 == k
        · simp [List.find?_cons, hk] at hfind
        · simp only [List.find?_cons, hk] at hfind
          simpa [dget, List.find?, hk] using ih hfind

/-- Popping one key leaves the bindings of every other key unchanged. -/
theorem dget_dremove_ne {α : Type} (d : List (String × α)) (k k' : String)
    (h : k ≠ k') : dget (dremove d k') k = dget d k := by
  unfold dremove dpop dget
  induction d with
  | nil => rfl
  | cons kv tl ih =>
      by_cases hk : kv.1 == k
      · have : (kv.1 != k') = true := by
          have : kv.1 = k := by simpa using hk
          simp [this, bne, h]
        simp [List.filter, this, List.find?, hk]
      · by_cases hk' : kv.1 != k'
        · simp only [List.filter, hk']
          simpa [List.find?, hk] using ih
        · simp only [List.filter, hk']
          simpa [List.find?, hk] using ih

/-- A string starting with a longer concatenation starts with its first part. -/
theorem pyStartsWith_of_concat {s a b : String}
    (h : pyStartsWith s (pyConcat a b) = true) : pyStartsWith s a = true := by
  unfold pyStartsWith at h ⊢
  unfold pyConcat at h
  rw [List.isPrefixOf_iff_prefix] at h ⊢
  exact (List.prefix_append a.data b.data).trans h

/-- A pointwise-false predicate makes `List.any` false. -/
theorem list_any_false {α : Type} {p : α → Bool} {l : List α}
    (h : ∀ x ∈ l, p x = false) : l.any p = false := by
  induction l with
  | nil => rfl
  | cons x tl ih =>
      simp [List.any, h x (by simp),
        ih (fun y hy => h y (by simp [hy]))]

/-- Claim C9: applying `register_base_model` to a class whose first declared
parent `B` is a (possibly indirect) subclass of the pretrained-model base sets
`B.base_model_class` to the decorated class and returns the decorated class
unchanged; a later registration with the same first parent overwrites the
association (last registration wins); and a first parent that is not such a
subclass fails the assertion. -/
theorem c9_register_base_model (st : BaseRegistry) (b : PyClass)
    (nd ne : String) (hb : isSubPM b = true) :
    (∃ st' st'',
       register_base_model st (PyClass.sub nd b) =
         Except.ok (st', PyClass.sub nd b) ∧
       dget st' (clsName b) = some nd ∧
       register_base_model st' (PyClass.sub ne b) =
         Except.ok (st'', PyClass.sub ne b) ∧
       dget st'' (clsName b) = some ne) ∧
    (∀ (n : String) (p : PyClass), isSubPM p = false →
       register_base_model st (PyClass.sub n p) =
         Except.error (PyErr.assertionError registerAssertMsg)) := by
  constructor
  · refine ⟨dset st (clsName b) nd, dset (dset st (clsName b) nd) (clsName b) ne,
      ?_, dget_dset_self st (clsName b) nd, ?_, dget_dset_self _ (clsName b) ne⟩
    · simp [register_base_model, hb, clsName]
    · simp [register_base_model, hb, clsName]
  · intro n p hp
    simp [register_base_model, hp]

/-- Witness for C9 at a concrete two-step registration over `pm0`. -/
theorem c9_register_base_model_witness :
    ∃ st' st'',
      register_base_model [] (PyClass.sub "D" (PyClass.sub "B" PyClass.pm0)) =
        Except.ok (st', PyClass.sub "D" (PyClass.sub "B" PyClass.pm0)) ∧
      dget st' "B" = some "D" ∧
      register_base_model st' (PyClass.sub "E" (PyClass.sub "B" PyClass.pm0)) =
        Except.ok (st'', PyClass.sub "E" (PyClass.sub "B" PyClass.pm0)) ∧
      dget st'' "B" = some "E" := by
  have h := (c9_register_base_model [] (PyClass.sub "B" PyClass.pm0) "D" "E"
    (by decide)).1
  simpa [clsName] using h

/-- Claim C10: the return shape of `from_pretrained` depends on the runtime's
execution mode: in dynamic mode the (loaded) model alone is returned, and
otherwise the pair of the model and the state mapping that was loaded into it
is returned. -/
theorem c10_return_shape {T : Type} (cls : ClassInfo) (env : Env T)
    (nop : String) (args : List CVal) (kwargs : List (String × CVal))
    (r : FPResult T)
    (hok : from_pretrained cls env nop args kwargs = Except.ok r) :
    (env.in_dynamic_mode = true →
       r.ret = RetVal.single { r.model with params := r.finalParams }) ∧
    (env.in_dynamic_mode = false →
       r.ret = RetVal.pair { r.model with params := r.finalParams }
         r.state_to_load) := by
  obtain ⟨resolved, ik, rc, model, calls, lo, h1, h2, h3, h4, hr⟩ :=
    from_pretrained_inv hok
  subst hr
  constructor
  · intro hd; simp [mkFPResult, hd]
  · intro hd; simp [mkFPResult, hd]

/-- Witness for C10 in a concrete static-mode run: the result is the pair of
the loaded model and the loaded state. -/
theorem c10_return_shape_witness :
    ∃ r : FPResult Nat,
      from_pretrained wClsD wEnvC "m1" [] [] = Except.ok r ∧
      r.ret = RetVal.pair { r.model with params := r.finalParams }
        r.state_to_load := by
  refine ⟨_, rfl, ?_⟩
  exact (c10_return_shape wClsD wEnvC "m1" [] [] _ rfl).2 rfl

/-- Every member of a comma-joined list occurs inside the joined string. -/
theorem mem_joinComma_infix (s : String) (l : List String) (hs : s ∈ l) :
    s.data <:+: (joinComma l).data := by
  induction l with
  | nil => cases hs
  | cons x tl ih =>
      rcases List.mem_cons.mp hs with h | h
      · subst h
        cases tl with
        | nil => exact List.infix_rfl
        | cons y tl' =>
            exact ⟨[], (pyConcat ", " (joinComma (y :: tl'))).data,
              by simp [joinComma, pyConcat]⟩
      · have hin := ih h
        cases tl with
        | nil => cases h
        | cons y tl' =>
            refine hin.trans ?_
            exact ⟨x.data ++ (", " : String).data, [],
              by simp [joinComma, pyConcat]⟩

/-- A string occurs inside its quoted form. -/
theorem infix_pyQuote (s : String) : s.data <:+: (pyQuote s).data :=
  ⟨[Char.ofNat 39], [Char.ofNat 39],
    by simp [pyQuote, pyConcat, String.singleton]⟩

/-- Claim C7: a `name_or_path` that is neither a key of the class's
pretrained registry nor an existing directory makes `from_pretrained` fail
with a `ValueError` whose message lists every valid registry name, and no
model is constructed (the call returns an error, not a result). -/
theorem c7_unknown_identifier {T : Type} (cls : ClassInfo) (env : Env T)
    (nop : String) (args : List CVal) (kwargs : List (String × CVal))
    (hreg : (cls.pretrained_init_configuration.map Prod.fst).contains nop = false)
    (hdir : env.isdir nop = false) :
    from_pretrained cls env nop args kwargs =
      Except.error (PyErr.valueError (fpValueErrorMsg cls nop)) ∧
    ∀ n ∈ cls.pretrained_init_configuration.map Prod.fst,
      n.data <:+: (fpValueErrorMsg cls nop).data := by
  constructor
  · unfold from_pretrained resolvePhase
    simp only [hreg, hdir, Bool.false_eq_true, if_false, Bind.bind, Except.bind]
  · intro n hn
    have h1 : n.data <:+: (pyQuote n).data := infix_pyQuote n
    have h2 : (pyQuote n).data <:+:
        (joinComma ((cls.pretrained_init_configuration.map Prod.fst).map pyQuote)).data :=
      mem_joinComma_infix _ _ (List.mem_map_of_mem pyQuote hn)
    have h3 : (joinComma ((cls.pretrained_init_configuration.map Prod.fst).map pyQuote)).data <:+:
        (fpValueErrorMsg cls nop).data := by
      refine ⟨("Calling " : String).data ++ cls.name.data ++
        (".from_pretrained() with a model identifier or the path to a directory instead. The supported model identifiers are as follows: " : String).data ++
        ("dict_keys([" : String).data,
        ("])" : String).data ++ (", but got: " : String).data ++ nop.data, ?_⟩
      simp [fpValueErrorMsg, dictKeysRepr, pyConcat]
    exact (h1.trans h2).trans h3

/-- Witness for C7: the unknown identifier fails with the listing error, and
the registered name occurs in the message. -/
theorem c7_unknown_identifier_witness :
    from_pretrained wClsD wEnvA "nosuch" [] [] =
      Except.error (PyErr.valueError (fpValueErrorMsg wClsD "nosuch")) ∧
    ("m1" : String).data <:+: (fpValueErrorMsg wClsD "nosuch").data := by
  have h := c7_unknown_identifier wClsD wEnvA "nosuch" [] [] (by decide) rfl
  exact ⟨h.1, h.2 "m1" (by decide)⟩

/-- Claim C6: `from_pretrained` takes the weight file from the first value of
the resolved-resource mapping (in insertion order), and fails with an
assertion error whenever that file's name does not end with the expected
`.pdparams` suffix. -/
theorem c6_weight_file :
    (∀ {T : Type} (cls : ClassInfo) (env : Env T) (nop : String)
       (args : List CVal) (kwargs : List (String × CVal)) (r : FPResult T),
       from_pretrained cls env nop args kwargs = Except.ok r →
       ∃ kv rest, r.resolved = kv :: rest ∧ r.weight_path = kv.2 ∧
         pyEndsWith kv.2 ".pdparams" = true) ∧
    (∀ {T : Type} (cls : ClassInfo) (env : Env T) (model : CModel T)
       (fid p : String) (rest : List (String × String)),
       pyEndsWith p ".pdparams" = false →
       loadPhase cls env model ((fid, p) :: rest) =
         Except.error (PyErr.assertionError "suffix of weight must be .pdparams")) := by
  constructor
  · intro T cls env nop args kwargs r hok
    obtain ⟨resolved, ik, rc, model, calls, lo, h1, h2, h3, h4, hr⟩ :=
      from_pretrained_inv hok
    subst hr
    cases resolved with
    | nil => simp [loadPhase, Bind.bind, Except.bind] at h4
    | cons kv rest =>
        rw [loadPhase] at h4
        simp only [Bind.bind, Except.bind] at h4
        by_cases hs : pyEndsWith kv.2 ".pdparams" = true
        · rw [if_pos hs] at h4
          injection h4 with h4
          exact ⟨kv, rest, rfl, by simp [mkFPResult, ← h4], hs⟩
        · rw [if_neg hs] at h4
          cases h4
  · intro T cls env model fid p rest hs
    rw [loadPhase]
    simp only [Bind.bind, Except.bind]
    rw [if_neg (by simp [hs])]

/-- Witness for C6: the suffix assertion fires on a `.bin` weight file, and
the concrete successful run takes the first resolved value as weight path. -/
theorem c6_weight_file_witness :
    loadPhase wClsD wEnvA (⟨"DCls", [], []⟩ : CModel Nat)
        [("model_state", "weights/model.bin")] =
      Except.error (PyErr.assertionError "suffix of weight must be .pdparams") ∧
    ∃ r : FPResult Nat,
      from_pretrained wClsD wEnvA "m1" [] [] = Except.ok r ∧
      ∃ kv rest, r.resolved = kv :: rest ∧ r.weight_path = kv.2 ∧
        pyEndsWith kv.2 ".pdparams" = true := by
  constructor
  · exact c6_weight_file.2 wClsD wEnvA ⟨"DCls", [], []⟩ "model_state"
      "weights/model.bin" [] rfl
  · exact ⟨_, rfl, c6_weight_file.1 wClsD wEnvA "m1" [] [] _ rfl⟩

/-- Claim C5: when the target class of `from_pretrained` is its own registered
base-model class, explicit positional arguments replace the loaded
`init_args` entirely (no merging), explicit keyword arguments are merged into
the loaded keyword configuration with explicit values winning per key, and
the single constructed base instance (carrying the loaded parameters) is the
returned result. -/
theorem c5_base_overrides {T : Type} (cls : ClassInfo) (env : Env T)
    (nop : String) (args : List CVal) (kwargs : List (String × CVal))
    (r : FPResult T)
    (hok : from_pretrained cls env nop args kwargs = Except.ok r)
    (hbase : cls.name = cls.base_model_class) :
    ∃ rc, reconcile cls r.initConfig = Except.ok rc ∧
      r.ctorCalls = [⟨cls.name,
        (if args.isEmpty then rc.base_args else args).map ArgVal.c,
        (dupdate rc.base_kwargs kwargs).map (fun kv => (kv.1, ArgVal.c kv.2))⟩] ∧
      r.model = env.construct cls.name
        ((if args.isEmpty then rc.base_args else args).map ArgVal.c)
        ((dupdate rc.base_kwargs kwargs).map (fun kv => (kv.1, ArgVal.c kv.2))) ∧
      retModel r.ret = { r.model with params := r.finalParams } := by
  obtain ⟨resolved, ik, rc, model, calls, lo, h1, h2, h3, h4, hr⟩ :=
    from_pretrained_inv hok
  subst hr
  rw [constructPhase,
    if_pos (show (cls.name == cls.base_model_class) = true by simp [hbase])] at h3
  injection h3 with h3
  injection h3 with h31 h32
  refine ⟨rc, by simpa [mkFPResult] using h2, ?_, ?_, ?_⟩
  · simp [mkFPResult, ← h32]
  · simp [mkFPResult, ← h31]
  · cases hd : env.in_dynamic_mode <;> simp [mkFPResult, retModel, hd]

/-- Witness for C5: loaded config `init_args = (7,), hp = 1` with explicit
keyword override `hp = 2` leads to one base constructor call with the merged
keyword value. -/
theorem c5_base_overrides_witness :
    ∃ (r : FPResult Nat) (rc : Recon),
      from_pretrained wClsOv wEnvB "m5" [] [("hp", CVal.vInt 2)] = Except.ok r ∧
      reconcile wClsOv r.initConfig = Except.ok rc ∧
      r.ctorCalls = [⟨wClsOv.name, rc.base_args.map ArgVal.c,
        (dupdate rc.base_kwargs [("hp", CVal.vInt 2)]).map
          (fun kv => (kv.1, ArgVal.c kv.2))⟩] ∧
      retModel r.ret = { r.model with params := r.finalParams } := by
  obtain ⟨rc, ha, hb, _, hd⟩ :=
    c5_base_overrides wClsOv wEnvB "m5" [] [("hp", CVal.vInt 2)] _ rfl rfl
  exact ⟨_, rc, rfl, ha, by simpa using hb, hd⟩

/-- Claim C1: when the constructed model has an attribute named by
`base_model_prefix` and no key of the loaded weight-state mapping starts with
that prefix (a base-only checkpoint loaded into a derived model), the state is
loaded only into the nested base-model instance, every live parameter path of
the full model that does not start with the prefix is recorded as missing,
and the head parameters keep their freshly-initialized values. -/
theorem c1_base_checkpoint_into_derived {T : Type} (cls : ClassInfo)
    (env : Env T) (nop : String) (args : List CVal)
    (kwargs : List (String × CVal)) (r : FPResult T)
    (hok : from_pretrained cls env nop args kwargs = Except.ok r)
    (hattr : hasattr r.model cls.base_model_pfx = true)
    (hnone : ∀ kv ∈ env.loadWeights r.weight_path,
       pyStartsWith kv.1 cls.base_model_pfx = false) :
    r.state_to_load = env.loadWeights r.weight_path ∧
    r.finalParams = applyStateToModel r.model (some cls.base_model_pfx)
      (env.loadWeights r.weight_path) ∧
    (∀ k ∈ r.model.params.map Prod.fst,
       pyStartsWith k cls.base_model_pfx = false → k ∈ r.missing_keys) ∧
    (∀ kv ∈ r.model.params,
       pyStartsWith kv.1 cls.base_model_pfx = false → kv ∈ r.finalParams) := by
  obtain ⟨resolved, ik, rc, model, calls, lo, h1, h2, h3, h4, hr⟩ :=
    from_pretrained_inv hok
  subst hr
  simp only [mkFPResult] at hattr hnone ⊢
  cases resolved with
  | nil => simp [loadPhase, Bind.bind, Except.bind] at h4
  | cons kv0 rest =>
      rw [loadPhase] at h4
      simp only [Bind.bind, Except.bind] at h4
      by_cases hs : pyEndsWith kv0.2 ".pdparams" = true
      · rw [if_pos hs] at h4
        injection h4 with h4
        subst h4
        simp only at hattr hnone ⊢
        have hany : (env.loadWeights kv0.2).any
            (fun kv => pyStartsWith kv.1 cls.base_model_pfx) = false :=
          list_any_false hnone
        simp only [hattr, hany, Bool.not_true, Bool.not_false, Bool.false_and,
          Bool.and_true, Bool.true_and, Bool.and_false, if_false, if_true,
          Bool.false_eq_true, ite_false, ite_true]
        refine ⟨trivial, trivial, ?_, ?_⟩
        · intro k hk hkf
          exact List.mem_filter.mpr ⟨hk, by simp [hkf]⟩
        · intro kvp hkvp hkf
          have hx : pyStartsWith kvp.1 (pyConcat cls.base_model_pfx ".") = false := by
            cases hx' : pyStartsWith kvp.1 (pyConcat cls.base_model_pfx ".") with
            | false => rfl
            | true => exact absurd (pyStartsWith_of_concat hx') (by simp [hkf])
          simp only [applyStateToModel]
          have hmem := List.mem_map_of_mem
            (fun kv => if pyStartsWith kv.1 (pyConcat cls.base_model_pfx ".") then
                match dget (env.loadWeights kv0.2) (pyDrop kv.1 (pyLen cls.base_model_pfx + 1)) with
                | some w => (kv.1, w)
                | none => kv
              else kv) hkvp
          simpa [hx] using hmem
      · rw [if_neg hs] at h4
        cases h4

/-- Witness for C1: a checkpoint with the single key `w` loaded into a derived
model with parameters `bert.w` and `head.w`: the head key is reported missing,
`bert.w` takes the checkpoint value, and `head.w` keeps its fresh value. -/
theorem c1_base_checkpoint_into_derived_witness :
    ∃ r : FPResult Nat,
      from_pretrained wClsD wEnvA "m1" [] [] = Except.ok r ∧
      r.state_to_load = wEnvA.loadWeights r.weight_path ∧
      "head.w" ∈ r.missing_keys ∧
      ("head.w", 7) ∈ r.finalParams := by
  obtain ⟨ha, _, hc, hd⟩ :=
    c1_base_checkpoint_into_derived wClsD wEnvA "m1" [] [] _ rfl rfl
      (by decide)
  exact ⟨_, rfl, ha, hc "head.w" (by decide) rfl, hd ("head.w", 7) (by decide) rfl⟩

/-- Claim C2: when the constructed model has no attribute named by
`base_model_prefix` and the saved state keys all carry the prefix (a base-only
checkpoint loaded into a base-only model), the prefix plus the dot separator
is stripped from every prefix-carrying key before loading; any key that does
not carry the prefix is recorded as unexpected; and adding such a key to the
checkpoint still lets the load phase succeed (it never raises because of
unexpected keys), recording the key as unexpected. -/
theorem c2_base_checkpoint_into_base {T : Type} (cls : ClassInfo) (env : Env T)
    (nop : String) (args : List CVal) (kwargs : List (String × CVal))
    (r : FPResult T)
    (hok : from_pretrained cls env nop args kwargs = Except.ok r)
    (hnoattr : hasattr r.model cls.base_model_pfx = false)
    (hall : ∀ kv ∈ env.loadWeights r.weight_path,
       pyStartsWith kv.1 cls.base_model_pfx = true)
    (hne : env.loadWeights r.weight_path ≠ []) :
    (∀ kv ∈ env.loadWeights r.weight_path,
       (pyDrop kv.1 (pyLen cls.base_model_pfx + 1), kv.2) ∈ r.state_to_load) ∧
    (∀ k ∈ (env.loadWeights r.weight_path).map Prod.fst,
       pyStartsWith k cls.base_model_pfx = false → k ∈ r.unexpected_keys) ∧
    (∀ (k0 : String) (v0 : T), pyStartsWith k0 cls.base_model_pfx = false →
       ∃ lo2, loadPhase cls
           { env with loadWeights := fun p =>
               if p = r.weight_path then env.loadWeights p ++ [(k0, v0)]
               else env.loadWeights p }
           r.model r.resolved = Except.ok lo2 ∧
         k0 ∈ lo2.unexpected_keys) := by
  obtain ⟨resolved, ik, rc, model, calls, lo, h1, h2, h3, h4, hr⟩ :=
    from_pretrained_inv hok
  subst hr
  simp only [mkFPResult] at hnoattr hall hne ⊢
  cases resolved with
  | nil => simp [loadPhase, Bind.bind, Except.bind] at h4
  | cons kv0 rest =>
      rw [loadPhase] at h4
      simp only [Bind.bind, Except.bind] at h4
      by_cases hs : pyEndsWith kv0.2 ".pdparams" = true
      · rw [if_pos hs] at h4
        injection h4 with h4
        subst h4
        simp only at hnoattr hall hne ⊢
        have hany : (env.loadWeights kv0.2).any
            (fun kv => pyStartsWith kv.1 cls.base_model_pfx) = true := by
          cases hL : env.loadWeights kv0.2 with
          | nil => exact absurd hL hne
          | cons a tl =>
              have := hall a (by rw [hL]; exact List.mem_cons_self a tl)
              simp [List.any, this]
        simp only [hnoattr, hany, Bool.not_false, Bool.not_true, Bool.true_and,
          Bool.false_and, Bool.and_false, Bool.and_true, if_true, if_false,
          Bool.false_eq_true, ite_true, ite_false]
        refine ⟨?_, ?_, ?_⟩
        · intro kv hkv
          exact List.mem_filterMap.mpr ⟨kv, hkv, by simp [hall kv hkv]⟩
        · intro k hk hkf
          obtain ⟨kv, hkv, hke⟩ := List.mem_map.mp hk
          exact absurd (hall kv hkv) (by simp [hke, hkf])
        · intro k0 v0 hk0
          have hany2 : ((env.loadWeights kv0.2 ++ [(k0, v0)]).any
              (fun kv => pyStartsWith kv.1 cls.base_model_pfx)) = true := by
            simp [List.any_append, hany]
          refine ⟨{ weight_path := kv0.2,
                    state_to_load := (env.loadWeights kv0.2 ++ [(k0, v0)]).filterMap
                      (fun kv => if pyStartsWith kv.1 cls.base_model_pfx then
                          some (pyDrop kv.1 (pyLen cls.base_model_pfx + 1), kv.2)
                        else none),
                    missing_keys := [],
                    unexpected_keys := (env.loadWeights kv0.2 ++ [(k0, v0)]).filterMap
                      (fun kv => if pyStartsWith kv.1 cls.base_model_pfx then none
                        else some kv.1),
                    subTarget := none,
                    finalParams := applyStateToModel model none
                      ((env.loadWeights kv0.2 ++ [(k0, v0)]).filterMap
                        (fun kv => if pyStartsWith kv.1 cls.base_model_pfx then
                            some (pyDrop kv.1 (pyLen cls.base_model_pfx + 1), kv.2)
                          else none)) }, ?_, ?_⟩
          · rw [loadPhase]
            simp only [Bind.bind, Except.bind]
            rw [if_pos hs]
            have hifw : (if kv0.2 = kv0.2 then env.loadWeights kv0.2 ++ [(k0, v0)]
                else env.loadWeights kv0.2) = env.loadWeights kv0.2 ++ [(k0, v0)] := by
              simp
            simp only [hifw, hnoattr, hany2, Bool.not_false, Bool.true_and,
              Bool.false_and, if_true, if_false, ite_true, ite_false,
              Bool.false_eq_true]
          · exact List.mem_filterMap.mpr ⟨(k0, v0), by simp, by simp [hk0]⟩
      · rw [if_neg hs] at h4
        cases h4

/-- Witness for C2: keys `bert.w`, `bert.b` are stripped to `w`, `b`; adding
the non-prefixed key `extra` keeps the load successful and reports it
unexpected. -/
theorem c2_base_checkpoint_into_base_witness :
    ∃ r : FPResult Nat,
      from_pretrained wClsB wEnvB "m1" [] [] = Except.ok r ∧
      ("w", 3) ∈ r.state_to_load ∧
      ∃ lo2, loadPhase wClsB
          { wEnvB with loadWeights := fun p =>
              if p = r.weight_path then wEnvB.loadWeights p ++ [("extra", 9)]
              else wEnvB.loadWeights p }
          r.model r.resolved = Except.ok lo2 ∧
        "extra" ∈ lo2.unexpected_keys := by
  obtain ⟨ha, _, hc⟩ :=
    c2_base_checkpoint_into_base wClsB wEnvB "m1" [] [] _ rfl rfl (by decide)
      (by decide)
  exact ⟨_, rfl, by
    have := ha ("bert.w", 3) (by decide)
    simpa using this, hc "extra" 9 rfl⟩

/-- Claim C3 counterexample: in the registered configuration of `wClsBoth`
a positional nested marker (hyperparameter 1) is present — `findPosMarker`
finds it — yet the single base constructor invocation of the run carries the
keyword marker's configuration (hyperparameter 2): the keyword occurrence,
not the positional one, is the marker taken. -/
theorem c3_counterexample :
    findPosMarker 0
        [CVal.vDict [("init_class", CVal.vStr "BCls"), ("hp", CVal.vInt 1)]] =
      some (0, [("init_class", CVal.vStr "BCls"), ("hp", CVal.vInt 1)]) ∧
    ((from_pretrained wClsBoth wEnvA "m3" [] []).map (fun r => r.ctorCalls)) =
      Except.ok [⟨"BCls", [], [("hp", ArgVal.c (CVal.vInt 2))]⟩] ∧
    ([("hp", ArgVal.c (CVal.vInt 2))] : List (String × ArgVal Nat)) ≠
      [("hp", ArgVal.c (CVal.vInt 1))] := by
  refine ⟨rfl, rfl, ?_⟩
  intro h
  simp at h
/-- A successful marker-assertion pop returns the marker dict with its
`init_class` entry removed. -/
theorem popMarker_ok {cls : ClassInfo} {d d1 : List (String × CVal)}
    (h : popMarker cls d = Except.ok d1) : d1 = dremove d "init_class" := by
  unfold popMarker at h
  cases hg : dget d "init_class" with
  | none => rw [hg] at h; exact Except.noConfusion h
  | some v =>
      rw [hg] at h
      cases v with
      | vStr s =>
          cases hs : s == cls.base_model_class with
          | true => simp [hs] at h; exact h.symm
          | false => simp [hs] at h
      | vInt n => exact Except.noConfusion h
      | vList xs => exact Except.noConfusion h
      | vDict dd => exact Except.noConfusion h
      | vModel m => exact Except.noConfusion h

/-- Claim C3 (amended): when `from_pretrained` reconciles a derived-authored
configuration, BOTH marker loops run — the keyword loop is not guarded by the
positional result — so the marker taken as the base model's init
configuration is the first keyword marker when one exists, and the first
positional marker only otherwise: keyword occurrences take precedence over
positional occurrences.  The chosen marker (with `init_class` popped)
supplies the base keyword configuration and its `init_args` entry the base
positional arguments. -/
theorem c3_amended_marker_choice (cls : ClassInfo)
    (cfg : List (String × CVal)) (rc : Recon) (initArgs : List CVal)
    (hok : reconcile cls cfg = Except.ok rc)
    (hB : isBaseConfig cls (dget cfg "init_class") = false)
    (hargs : asSeq ((dget cfg "init_args").getD (CVal.vList [])) =
       Except.ok initArgs) :
    ∃ idx d,
      amendedMarkerChoice initArgs
          (dremove (dremove cfg "init_args") "init_class") = some (idx, d) ∧
      rc.base_arg_index = some idx ∧
      rc.base_kwargs = dremove d "init_args" ∧
      asSeq ((dget d "init_args").getD (CVal.vList [])) =
        Except.ok rc.base_args := by
  have hic : dget (dremove cfg "init_args") "init_class" = dget cfg "init_class" :=
    dget_dremove_ne _ _ _ (by decide)
  rw [reconcile] at hok
  simp only [dpop, Bind.bind, Except.bind] at hok
  rw [show dget (List.filter (fun kv => kv.1 != "init_args") cfg) "init_class" =
      dget cfg "init_class" from hic] at hok
  simp only [hB, Bool.false_eq_true, if_false] at hok
  rw [hargs] at hok
  simp only [Except.bind] at hok
  simp only [amendedMarkerChoice, dremove, dpop]
  cases hkw : findKwMarker
      (List.filter (fun kv => kv.1 != "init_class")
        (List.filter (fun kv => kv.1 != "init_args") cfg)) with
  | some kd =>
      obtain ⟨k, d⟩ := kd
      cases hpos : findPosMarker 0 initArgs with
      | none =>
          simp only [hpos, hkw] at hok
          cases hpm : popMarker cls d with
          | error e => simp only [hpm] at hok; exact Except.noConfusion hok
          | ok d1 =>
              simp only [hpm] at hok
              cases hseq : asSeq ((dget d1 "init_args").getD (CVal.vList [])) with
              | error e => simp only [hseq] at hok; exact Except.noConfusion hok
              | ok ba =>
                  simp only [hseq] at hok
                  injection hok with hok
                  subst hok
                  refine ⟨Sum.inr k, d1, ?_, rfl, rfl, hseq⟩
                  rw [popMarker_ok hpm]
                  simp [dremove, dpop]
      | some pd =>
          obtain ⟨i, dp⟩ := pd
          simp only [hpos, hkw] at hok
          cases hpm0 : popMarker cls dp with
          | error e => simp only [hpm0] at hok; exact Except.noConfusion hok
          | ok dp1 =>
              simp only [hpm0] at hok
              cases hpm : popMarker cls d with
              | error e => simp only [hpm] at hok; exact Except.noConfusion hok
              | ok d1 =>
                  simp only [hpm] at hok
                  cases hseq : asSeq ((dget d1 "init_args").getD (CVal.vList [])) with
                  | error e => simp only [hseq] at hok; exact Except.noConfusion hok
                  | ok ba =>
                      simp only [hseq] at hok
                      injection hok with hok
                      subst hok
                      refine ⟨Sum.inr k, d1, ?_, rfl, rfl, hseq⟩
                      rw [popMarker_ok hpm]
                      simp [dremove, dpop]
  | none =>
      cases hpos : findPosMarker 0 initArgs with
      | none =>
          simp only [hpos, hkw] at hok
          exact Except.noConfusion hok
      | some pd =>
          obtain ⟨i, dp⟩ := pd
          simp only [hpos, hkw] at hok
          cases hpm0 : popMarker cls dp with
          | error e => simp only [hpm0] at hok; exact Except.noConfusion hok
          | ok dp1 =>
              simp only [hpm0] at hok
              cases hseq : asSeq ((dget dp1 "init_args").getD (CVal.vList [])) with
              | error e => simp only [hseq] at hok; exact Except.noConfusion hok
              | ok ba =>
                  simp only [hseq] at hok
                  injection hok with hok
                  subst hok
                  refine ⟨Sum.inl i, dp1, ?_, rfl, rfl, hseq⟩
                  rw [popMarker_ok hpm0]
                  simp [dremove, dpop]

/-- Witness for the amended C3: with a marker only among the keyword
arguments, the chosen index is the keyword name `emb`. -/
theorem c3_amended_marker_choice_witness :
    ∃ rc : Recon,
      reconcile wClsKw wCfgKw = Except.ok rc ∧
      ∃ idx d,
        amendedMarkerChoice []
            (dremove (dremove wCfgKw "init_args") "init_class") =
          some (idx, d) ∧
        rc.base_arg_index = some idx ∧
        rc.base_kwargs = dremove d "init_args" ∧
        asSeq ((dget d "init_args").getD (CVal.vList [])) =
          Except.ok rc.base_args := by
  refine ⟨_, rfl, ?_⟩
  exact c3_amended_marker_choice wClsKw wCfgKw _ [] rfl rfl rfl

/-- Claim C4 counterexample: with the nested marker found at the keyword
argument `emb` and a derived target class, `from_pretrained` does not
substitute the base model at that keyword — it fails with a `TypeError`
(the code indexes the positional-argument list with the keyword name). -/
theorem c4_counterexample :
    findKwMarker (dremove (dremove wCfgKw "init_args") "init_class") =
      some ("emb", [("init_class", CVal.vStr "BCls"), ("hp", CVal.vInt 2)]) ∧
    (from_pretrained wClsKw wEnvA "m4" [] [] : Except PyErr (FPResult Nat)) =
      Except.error
        (PyErr.typeError "list indices must be integers or slices, not str") :=
  ⟨rfl, rfl⟩
/-- Claim C4 (amended): when `from_pretrained` constructs a derived class
(and no explicit positional overrides are passed, which would replace the
argument tuple wholesale), the freshly built base-model instance is
substituted at the positional index where the nested marker was found, or
becomes the sole positional argument when the loaded configuration had no
explicit position for it; a marker found at a keyword-argument name is
incompatible with a successful call — the code fails with a `TypeError`
instead of substituting there. -/
theorem c4_amended_substitution {T : Type} (cls : ClassInfo) (env : Env T)
    (nop : String) (kwargs : List (String × CVal)) (r : FPResult T) (rc : Recon)
    (hok : from_pretrained cls env nop [] kwargs = Except.ok r)
    (hname : cls.name ≠ cls.base_model_class)
    (hrc : reconcile cls r.initConfig = Except.ok rc) :
    (∀ k, rc.base_arg_index ≠ some (Sum.inr k)) ∧
    ∃ bk dkw,
      r.ctorCalls =
        [⟨cls.base_model_class, rc.base_args.map ArgVal.c, bk⟩,
         ⟨cls.name,
          (match rc.base_arg_index with
           | some (Sum.inl i) =>
               (rc.derived_args.map ArgVal.c).set i
                 (ArgVal.m (env.construct cls.base_model_class
                   (rc.base_args.map ArgVal.c) bk))
           | _ => [ArgVal.m (env.construct cls.base_model_class
               (rc.base_args.map ArgVal.c) bk)]),
          dkw⟩] := by
  obtain ⟨resolved, ik, rc', model, calls, lo, h1, h2, h3, h4, hr⟩ :=
    from_pretrained_inv hok
  subst hr
  simp only [mkFPResult] at hrc ⊢
  rw [h2] at hrc
  injection hrc with hrc
  subst hrc
  rw [constructPhase] at h3
  rw [if_neg (show ¬ ((cls.name == cls.base_model_class) = true) by
    simp [hname])] at h3
  cases hidx : rc'.base_arg_index with
  | none =>
      simp only [hidx, List.isEmpty_nil, if_true, ite_true] at h3
      injection h3 with h3
      injection h3 with h31 h32
      constructor
      · intro k hk
        exact Option.noConfusion hk
      · refine ⟨(kwargs.foldl (fun acc kv =>
            if cls.base_param_names.contains kv.1 then dset acc kv.1 kv.2
            else acc) rc'.base_kwargs).map (fun kv => (kv.1, ArgVal.c kv.2)),
          kwargs.foldl (fun acc kv =>
            if cls.derived_param_names.contains kv.1 then
              dset acc kv.1 (ArgVal.c kv.2)
            else acc)
            (rc'.derived_kwargs.map (fun kv => (kv.1, ArgVal.c kv.2))), ?_⟩
        rw [← h32]
  | some s =>
      cases s with
      | inl i =>
          simp only [hidx, List.isEmpty_nil, if_true, ite_true] at h3
          injection h3 with h3
          injection h3 with h31 h32
          constructor
          · intro k hk
            injection hk with hk
            exact Sum.noConfusion hk
          · refine ⟨(kwargs.foldl (fun acc kv =>
                if cls.base_param_names.contains kv.1 then dset acc kv.1 kv.2
                else acc) rc'.base_kwargs).map
                  (fun kv => (kv.1, ArgVal.c kv.2)),
              kwargs.foldl (fun acc kv =>
                if cls.derived_param_names.contains kv.1 then
                  dset acc kv.1 (ArgVal.c kv.2)
                else acc)
                (rc'.derived_kwargs.map (fun kv => (kv.1, ArgVal.c kv.2))), ?_⟩
            rw [← h32]
      | inr k =>
          simp only [hidx] at h3
          exact Except.noConfusion h3

/-- Witness for the amended C4: a base-authored configuration loaded into the
derived class has no marker position, so the base model becomes the sole
positional argument of the derived constructor. -/
theorem c4_amended_substitution_witness :
    ∃ (r : FPResult Nat) (rc : Recon),
      from_pretrained wClsD wEnvA "m1" [] [] = Except.ok r ∧
      reconcile wClsD r.initConfig = Except.ok rc ∧
      (∀ k, rc.base_arg_index ≠ some (Sum.inr k)) ∧
      ∃ bk dkw,
        r.ctorCalls =
          [⟨"BCls", rc.base_args.map ArgVal.c, bk⟩,
           ⟨"DCls", [ArgVal.m (wEnvA.construct "BCls"
               (rc.base_args.map ArgVal.c) bk)], dkw⟩] := by
  obtain ⟨h1, bk, dkw, h2⟩ :=
    c4_amended_substitution wClsD wEnvA "m1" [] _ _ rfl (by decide) rfl
  refine ⟨_, _, rfl, rfl, h1, bk, dkw, ?_⟩
  simpa using h2
/-- Joint round-trip statement for values, lists, and dicts: whatever
`json.dumps` accepts, `json.load` reads back unchanged.  Proved by strong
induction on the size bound `n`. -/
theorem decode_encode (n : Nat) :
    (∀ (v : CVal) (j : JVal), sizeOf v ≤ n → encodeV v = some j →
       decodeV j = v) ∧
    (∀ (xs : List CVal) (js : List JVal), sizeOf xs ≤ n →
       encodeL xs = some js → decodeL js = xs) ∧
    (∀ (d : List (String × CVal)) (e : List (String × JVal)), sizeOf d ≤ n →
       encodeD d = some e → decodeD e = d) := by
  induction n with
  | zero =>
      refine ⟨?_, ?_, ?_⟩
      · intro v j hs he
        cases v <;> simp at hs
      · intro xs js hs he
        cases xs <;> simp at hs
      · intro d e hs he
        cases d <;> simp at hs
  | succ n ih =>
      obtain ⟨ihv, ihl, ihd⟩ := ih
      refine ⟨?_, ?_, ?_⟩
      · intro v j hs he
        cases v with
        | vInt m =>
            simp only [encodeV] at he
            injection he with he
            subst he
            rfl
        | vStr s =>
            simp only [encodeV] at he
            injection he with he
            subst he
            rfl
        | vList xs =>
            simp only [encodeV] at he
            cases hl : encodeL xs with
            | none => rw [hl] at he; simp at he
            | some js =>
                rw [hl] at he
                simp only [Option.map] at he
                injection he with he
                subst he
                have hsz : sizeOf xs ≤ n := by
                  simp at hs
                  omega
                simp only [decodeV, ihl xs js hsz hl]
        | vDict d =>
            simp only [encodeV] at he
            cases hl : encodeD d with
            | none => rw [hl] at he; simp at he
            | some e =>
                rw [hl] at he
                simp only [Option.map] at he
                injection he with he
                subst he
                have hsz : sizeOf d ≤ n := by
                  simp at hs
                  omega
                simp only [decodeV, ihd d e hsz hl]
        | vModel m =>
            simp only [encodeV] at he
            exact Option.noConfusion he
      · intro xs js hs he
        cases xs with
        | nil =>
            simp only [encodeL] at he
            injection he with he
            subst he
            rfl
        | cons x tl =>
            simp only [encodeL] at he
            cases hx : encodeV x with
            | none => rw [hx] at he; simp at he
            | some jx =>
                cases htl : encodeL tl with
                | none => rw [hx, htl] at he; simp at he
                | some jtl =>
                    rw [hx, htl] at he
                    injection he with he
                    subst he
                    have hs1 : sizeOf x ≤ n := by simp at hs; omega
                    have hs2 : sizeOf tl ≤ n := by simp at hs; omega
                    simp only [decodeL, ihv x jx hs1 hx, ihl tl jtl hs2 htl]
      · intro d e hs he
        cases d with
        | nil =>
            simp only [encodeD] at he
            injection he with he
            subst he
            rfl
        | cons kv tl =>
            simp only [encodeD] at he
            cases hx : encodeV kv.2 with
            | none => rw [hx] at he; simp at he
            | some jx =>
                cases htl : encodeD tl with
                | none => rw [hx, htl] at he; simp at he
                | some jtl =>
                    rw [hx, htl] at he
                    injection he with he
                    subst he
                    have hs1 : sizeOf kv.2 ≤ n := by
                      obtain ⟨k, v⟩ := kv
                      simp at hs ⊢
                      omega
                    have hs2 : sizeOf tl ≤ n := by simp at hs; omega
                    simp only [decodeD, ihv kv.2 jx hs1 hx, ihl, ihd tl jtl hs2 htl]

/-- Pointwise description of the saved configuration: each binding is the
original one with the value transformed exactly as `save_model_config`
prescribes for its key. -/
theorem dget_save_model_config (cfg : List (String × CVal)) (k : String) :
    dget (save_model_config cfg) k =
      (dget cfg k).map (fun v =>
        if k = "init_args" then
          match v with
          | CVal.vList xs => CVal.vList (xs.map saveArgElem)
          | v => v
        else saveArgElem v) := by
  induction cfg with
  | nil => rfl
  | cons kv tl ih =>
      obtain ⟨k1, v1⟩ := kv
      have hmap : save_model_config ((k1, v1) :: tl) =
          (k1, if k1 = "init_args" then
              (match v1 with
               | CVal.vList xs => CVal.vList (xs.map saveArgElem)
               | v => v)
            else saveArgElem v1) :: save_model_config tl := by
        simp only [save_model_config, List.map_cons]
        by_cases ha : k1 = "init_args" <;> simp [ha]
      rw [hmap]
      by_cases hk : (k1 == k) = true
      · have hkeq : k1 = k := by simpa using hk
        subst hkeq
        simp only [dget]
        rw [List.find?_cons_of_pos _ (by simpa using hk),
          List.find?_cons_of_pos _ (by simpa using hk)]
        rfl
      · simp only [dget] at ih ⊢
        rw [List.find?_cons_of_neg _ (by simpa using hk),
          List.find?_cons_of_neg _ (by simpa using hk)]
        exact ih

/-- Claim C8: `save_model_config` writes the init configuration with every
top-level pretrained-model value — and every model element of the
`init_args` sequence — replaced by that nested instance's own init
configuration, and whenever the written configuration is serializable (it
contains no remaining live model values), serializing and re-loading it
round-trips to the same configuration. -/
theorem c8_save_round_trip (cfg : List (String × CVal))
    (hfree : (encodeD (save_model_config cfg)).isSome = true) :
    (∀ (k : String) (m : List (String × CVal)),
       dget cfg k = some (CVal.vModel m) → k ≠ "init_args" →
       dget (save_model_config cfg) k = some (CVal.vDict m)) ∧
    (∀ xs, dget cfg "init_args" = some (CVal.vList xs) →
       dget (save_model_config cfg) "init_args" =
         some (CVal.vList (xs.map saveArgElem))) ∧
    ∃ j, encodeD (save_model_config cfg) = some j ∧
      decodeD j = save_model_config cfg := by
  refine ⟨?_, ?_, ?_⟩
  · intro k m hm hk
    rw [dget_save_model_config, hm]
    simp [hk, saveArgElem]
  · intro xs hm
    rw [dget_save_model_config, hm]
    simp
  · obtain ⟨j, hj⟩ := Option.isSome_iff_exists.mp hfree
    exact ⟨j, hj,
      (decode_encode (sizeOf (save_model_config cfg))).2.2 _ j le_rfl hj⟩

/-- Witness for C8 on a configuration holding a nested model both inside
`init_args` and as a plain keyword value. -/
theorem c8_save_round_trip_witness :
    dget (save_model_config wCfgSave) "emb" =
      some (CVal.vDict [("h", CVal.vInt 8)]) ∧
    dget (save_model_config wCfgSave) "init_args" =
      some (CVal.vList [CVal.vDict [("h", CVal.vInt 8)], CVal.vInt 3]) ∧
    ∃ j, encodeD (save_model_config wCfgSave) = some j ∧
      decodeD j = save_model_config wCfgSave := by
  have h := c8_save_round_trip wCfgSave
    (by simp [wCfgSave, save_model_config, saveArgElem, encodeD, encodeV, encodeL])
  refine ⟨h.1 "emb" [("h", CVal.vInt 8)] rfl (by decide), ?_, h.2.2⟩
  have h2 := h.2.1 [CVal.vModel [("h", CVal.vInt 8)], CVal.vInt 3] rfl
  simpa [saveArgElem] using h2
